import Mathlib

/-!
Verification of the CXEMA_V7 financial computation core.

Shallow embedding conventions:
* Money and numeric values are modelled as `ℚ`. The JavaScript source uses
  IEEE-754 doubles; every claim under study is an algebraic identity over
  `+`, `*`, `/ 100` and comparisons, so the exact-arithmetic model is the
  faithful abstraction (floating-point rounding is outside the claims).
* Strings are modelled as `List Char` internally, with `String` wrappers at
  the boundary. JavaScript `String.prototype.replace` with a string pattern
  replaces only the first occurrence; with a `/g` regex it replaces all —
  both behaviours are mirrored exactly.
* `null`-returning fallible functions become `Option`, throwing functions
  become `Except String`.
-/

namespace CXEMA

/-! ## Numeric normalization (src/frontend/src/ui/numberInput.ts)

`SPACE_CHARS = /[\s  ]+/g`.  JavaScript `\s` matches the
whitespace and line-terminator code points listed below (` ` and
` ` are already in `\s`; the source lists them redundantly). -/

def jsSpaceCodes : List Nat :=
  [9, 10, 11, 12, 13, 32, 0xA0, 0x1680,
   0x2000, 0x2001, 0x2002, 0x2003, 0x2004, 0x2005, 0x2006, 0x2007,
   0x2008, 0x2009, 0x200A, 0x2028, 0x2029, 0x202F, 0x205F, 0x3000, 0xFEFF]

def isJsSpace (c : Char) : Bool :=
  jsSpaceCodes.contains c.toNat

/-- `raw.trim()` — strip leading and trailing whitespace. -/
def trimJs (l : List Char) : List Char :=
  ((l.dropWhile isJsSpace).reverse.dropWhile isJsSpace).reverse

/-- `.replace(SPACE_CHARS, "")` — a `/g` regex replace removes every
whitespace character. -/
def stripJs (l : List Char) : List Char :=
  l.filter (fun c => !isJsSpace c)

/-- `.replace(",", ".")` — a string-pattern replace rewrites only the FIRST
comma. -/
def replaceFirstComma : List Char → List Char
  | [] => []
  | c :: r => if c = ',' then '.' :: r else c :: replaceFirstComma r

/-- `normalizeNumberText(raw)` = `raw.trim().replace(SPACE_CHARS, "").replace(",", ".")`. -/
def normalizeNumberText (l : List Char) : List Char :=
  replaceFirstComma (stripJs (trimJs l))

/-- Decimal digit predicate (`\d`). -/
def isDigitC (c : Char) : Bool :=
  decide (48 ≤ c.toNat ∧ c.toNat ≤ 57)

def digitVal (c : Char) : Nat := c.toNat - 48

/-- Value of a decimal digit string, most significant digit first. -/
def natOfDigits (l : List Char) : Nat :=
  l.foldl (fun a c => 10 * a + digitVal c) 0

/-- Hexadecimal digit value, used for the `0x`/`0o`/`0b` literal forms
accepted by JavaScript `Number()`. -/
def hexVal (c : Char) : Option Nat :=
  let n := c.toNat
  if 48 ≤ n ∧ n ≤ 57 then some (n - 48)
  else if 97 ≤ n ∧ n ≤ 102 then some (n - 87)
  else if 65 ≤ n ∧ n ≤ 70 then some (n - 55)
  else none

def natOfRadix (base : Nat) (l : List Char) : Option Nat :=
  l.foldl
    (fun acc c =>
      acc.bind fun a => (hexVal c).bind fun v =>
        if v < base then some (base * a + v) else none)
    (some 0)

/-- Exponent part of a decimal literal, after the `e`/`E` marker. -/
def expVal : List Char → Option Int
  | [] => none
  | '+' :: ds => if ds ≠ [] ∧ ds.all isDigitC then some (natOfDigits ds : Int) else none
  | '-' :: ds => if ds ≠ [] ∧ ds.all isDigitC then some (-(natOfDigits ds : Int)) else none
  | ds => if ds.all isDigitC then some (natOfDigits ds : Int) else none

/-- Mantissa of a decimal literal: `digits`, `digits.`, `digits.digits` or
`.digits` (the leading digit run and the rest are the two halves of the
span on digits). -/
def mantissaVal (l : List Char) : Option ℚ :=
  match l.dropWhile isDigitC with
  | [] => if l.takeWhile isDigitC = [] then none else some (natOfDigits (l.takeWhile isDigitC) : ℚ)
  | c :: f =>
      if c = '.' ∧ f.all isDigitC ∧ (l.takeWhile isDigitC ≠ [] ∨ f ≠ []) then
        some ((natOfDigits (l.takeWhile isDigitC) : ℚ) + (natOfDigits f : ℚ) / (10 : ℚ) ^ f.length)
      else none

/-- Unsigned decimal literal value (mantissa split from the optional
exponent at the first `e`/`E`).  `"Infinity"` yields a non-finite value,
which the caller's `Number.isFinite` guard turns into `null`, so the finite
model maps it to `none` directly. -/
def decLitVal (l : List Char) : Option ℚ :=
  if l = ("Infinity").data then none
  else
    match l.dropWhile (fun c => !(c = 'e' || c = 'E')) with
    | [] => mantissaVal l
    | _ :: es => do
        let m ← mantissaVal (l.takeWhile (fun c => !(c = 'e' || c = 'E')))
        let e ← expVal es
        pure (m * (10 : ℚ) ^ e)

/-- `Number(s)` on a whitespace-free string, composed with the
`Number.isFinite` guard: non-finite results (`NaN`, `±Infinity`) are `none`.
A sign is only admitted on decimal literals (JavaScript rejects `-0x10`). -/
def jsNumberFinite (l : List Char) : Option ℚ :=
  match l with
  | [] => decLitVal []
  | c :: r =>
      if c = '+' then decLitVal r
      else if c = '-' then (decLitVal r).map Neg.neg
      else if c = '0' then
        match r with
        | [] => decLitVal [c]
        | c2 :: r2 =>
            if c2 = 'x' ∨ c2 = 'X' then
              (if r2 = [] then none else (natOfRadix 16 r2).map (fun n => (n : ℚ)))
            else if c2 = 'o' ∨ c2 = 'O' then
              (if r2 = [] then none else (natOfRadix 8 r2).map (fun n => (n : ℚ)))
            else if c2 = 'b' ∨ c2 = 'B' then
              (if r2 = [] then none else (natOfRadix 2 r2).map (fun n => (n : ℚ)))
            else decLitVal (c :: c2 :: r2)
      else decLitVal (c :: r)

/-- `parseInputNumber(raw)`: normalize, return `null` on the empty string,
else `Number(...)` filtered through `Number.isFinite`. -/
def parseInputNumberL (l : List Char) : Option ℚ :=
  let n := normalizeNumberText l
  if n = [] then none else jsNumberFinite n

def parseInputNumber (s : String) : Option ℚ :=
  parseInputNumberL s.data

/-- `intPart.replace(/^0+(?=\d)/, "") || "0"` — drop leading zeros but keep
a lone final zero; the empty string becomes `"0"`. -/
def cleanInt (l : List Char) : List Char :=
  let d := l.dropWhile (fun c => c = '0')
  if d = [] then ['0'] else d

/-- Thousands grouping on a REVERSED digit string: insert a space after
every three digits (mirrors `clean.replace(/\B(?=(\d{3})+(?!\d))/g, " ")`). -/
def g3r : List Char → List Char
  | a :: b :: c :: d :: r => a :: b :: c :: ' ' :: g3r (d :: r)
  | l => l

def groupThousands (l : List Char) : List Char :=
  (g3r (cleanInt l).reverse).reverse

/-- The test `/^\d+(\.\d+)?$/` together with the subsequent
`normalized.split(".")`: returns the integer part and the optional
fractional part. -/
def matchesIntFrac (l : List Char) : Option (List Char × Option (List Char)) :=
  if l.takeWhile isDigitC = [] then none
  else
    match l.dropWhile isDigitC with
    | [] => some (l.takeWhile isDigitC, none)
    | c :: f =>
        if c = '.' ∧ f ≠ [] ∧ f.all isDigitC then some (l.takeWhile isDigitC, some f)
        else none

/-- `formatNumberForInput(raw)`. -/
def formatNumberForInputL (l : List Char) : List Char :=
  let n := normalizeNumberText l
  if n = [] then []
  else
    match matchesIntFrac n with
    | none => trimJs l
    | some (i, none) => groupThousands i
    | some (i, some f) => groupThousands i ++ ',' :: f

def formatNumberForInput (s : String) : String :=
  ⟨formatNumberForInputL s.data⟩

/-! ## Date normalization (src/frontend/src/ui/pages/ProjectPage.tsx,
`formatDateParts` / `parseFlexibleDate`) -/

/-- Gregorian leap-year rule, as implemented by the JavaScript `Date`. -/
def isLeap (y : Nat) : Bool :=
  y % 4 = 0 ∧ (y % 100 ≠ 0 ∨ y % 400 = 0)

def daysInMonth (y m : Nat) : Nat :=
  if m = 2 then (if isLeap y then 29 else 28)
  else if m = 4 ∨ m = 6 ∨ m = 9 ∨ m = 11 then 30
  else 31

/-- Decimal digits of `n`, left-padded with zeros to width `w`. -/
def padNat (w n : Nat) : List Char :=
  let ds := Nat.toDigits 10 n
  List.replicate (w - ds.length) '0' ++ ds

/-- `formatDateParts(year, month, day)`: range checks, then the
`Date.UTC` round-trip check.  For `1 ≤ month ≤ 12` and `1 ≤ day ≤ 31` the
round-trip through `Date.UTC` succeeds exactly when
`day ≤ daysInMonth year month` (any larger day overflows into the next
month and fails the `getUTCDate` comparison), which is how the check is
embedded here.  On success the canonical `YYYY-MM-DD` string is returned. -/
def formatDateParts (year month day : Nat) : Option String :=
  if year < 1900 ∨ 2100 < year then none
  else if month < 1 ∨ 12 < month then none
  else if day < 1 ∨ 31 < day then none
  else if daysInMonth year month < day then none
  else some ⟨padNat 4 year ++ '-' :: padNat 2 month ++ '-' :: padNat 2 day⟩

/-- `^(\d{4})-(\d{2})-(\d{2})$` — the ISO arm. -/
def matchIso (l : List Char) : Option (Nat × Nat × Nat) :=
  match l with
  | [a, b, c, d, s1, e, f, s2, g, h] =>
      if s1 = '-' ∧ s2 = '-' ∧ [a, b, c, d, e, f, g, h].all isDigitC then
        some (natOfDigits [a, b, c, d], natOfDigits [e, f], natOfDigits [g, h])
      else none
  | _ => none

def isRuSep (c : Char) : Bool := c = '.' ∨ c = '/' ∨ c = '-'

def isYmdSep (c : Char) : Bool := c = '.' ∨ c = '/'

/-- The second arm: 1-2 digits, a separator (dot, slash or dash), 1-2
digits, a separator, 2-4 digits — day, month, raw year and the year's
digit count. -/
def matchRu (l : List Char) : Option (Nat × Nat × Nat × Nat) :=
  let p1 := l.span isDigitC
  if p1.1.length < 1 ∨ 2 < p1.1.length then none
  else
    match p1.2 with
    | s1 :: r2 =>
        if !isRuSep s1 then none
        else
          let p2 := r2.span isDigitC
          if p2.1.length < 1 ∨ 2 < p2.1.length then none
          else
            match p2.2 with
            | s2 :: r4 =>
                if !isRuSep s2 then none
                else
                  let p3 := r4.span isDigitC
                  if p3.2 = [] ∧ 2 ≤ p3.1.length ∧ p3.1.length ≤ 4 then
                    some (natOfDigits p1.1, natOfDigits p2.1, natOfDigits p3.1, p3.1.length)
                  else none
            | [] => none
    | [] => none

/-- The third arm: 4 digits, a separator (dot or slash), 1-2 digits, a
separator, 1-2 digits — year, month, day. -/
def matchYmd (l : List Char) : Option (Nat × Nat × Nat) :=
  let p1 := l.span isDigitC
  if p1.1.length ≠ 4 then none
  else
    match p1.2 with
    | s1 :: r2 =>
        if !isYmdSep s1 then none
        else
          let p2 := r2.span isDigitC
          if p2.1.length < 1 ∨ 2 < p2.1.length then none
          else
            match p2.2 with
            | s2 :: r4 =>
                if !isYmdSep s2 then none
                else
                  let p3 := r4.span isDigitC
                  if p3.2 = [] ∧ 1 ≤ p3.1.length ∧ p3.1.length ≤ 2 then
                    some (natOfDigits p1.1, natOfDigits p2.1, natOfDigits p3.1)
                  else none
            | [] => none
    | [] => none

/-- `parseFlexibleDate(raw)`: trim, try the ISO, `D.M.Y` and `Y.M.D` arms
in order; a 2-digit year in the second arm means `20xx`. -/
def parseFlexibleDateL (l : List Char) : Option String :=
  let v := trimJs l
  if v = [] then none
  else
    match matchIso v with
    | some (y, m, d) => formatDateParts y m d
    | none =>
        match matchRu v with
        | some (d, m, yraw, ylen) =>
            formatDateParts (if ylen = 2 then 2000 + yraw else yraw) m d
        | none =>
            match matchYmd v with
            | some (y, m, d) => formatDateParts y m d
            | none => none

def parseFlexibleDate (s : String) : Option String :=
  parseFlexibleDateL s.data

/-! ## Line items and the valuation engine (ProjectPage.tsx)

An `Item` carries the persisted fields that the valuation engine reads.
The page mirrors every persisted item into a string draft
(`itemToSheetDraft`, re-established from the server state by a
`useEffect`); the numeric content of those drafts is exactly the persisted
value by the format/parse round-trip proved below
(`parse_format_roundtrip`), so the engine is embedded directly over the
persisted numbers.  `parseDraftNumber` clamps unparseable or negative
drafts to 0, which on persisted values is `clamp0`. -/

inductive ItemMode
  | SINGLE_TOTAL
  | QTY_PRICE
deriving DecidableEq, Repr

structure Item where
  id : Nat
  group_id : Nat
  parent_item_id : Option Nat
  mode : ItemMode
  qty : Option ℚ
  unit_price_base : Option ℚ
  base_total : ℚ
  extra_profit_enabled : Bool
  extra_profit_amount : ℚ
  discount_enabled : Bool
  discount_amount : ℚ
deriving DecidableEq, Repr

/-- `parseDraftNumber`: a parsed value below 0 (or no value) becomes 0. -/
def clamp0 (q : ℚ) : ℚ := if q < 0 then 0 else q

structure ItemMath where
  base : ℚ
  extra : ℚ
  discount : ℚ
  totalBeforeDiscount : ℚ
  total : ℚ
deriving DecidableEq, Repr

/-- One entry of `itemMathById`, evaluated on the item's persisted draft:
`base` starts as `parseDraftNumber(draft.base_total)`; when a quantity is
present (`shouldAutoCalcFromQty`) and both `qty` and `unit_price_base`
parse to non-negative numbers, `base` is recomputed as
`qty == 0 ? unit : qty * unit`. -/
def itemMath (it : Item) : ItemMath :=
  let base :=
    match it.qty, it.unit_price_base with
    | some q, some u => if 0 ≤ q ∧ 0 ≤ u then (if q = 0 then u else q * u) else clamp0 it.base_total
    | _, _ => clamp0 it.base_total
  let extra := if it.extra_profit_enabled then clamp0 it.extra_profit_amount else 0
  let discount := if it.discount_enabled then it.discount_amount else 0
  { base := base, extra := extra, discount := discount,
    totalBeforeDiscount := base + extra, total := base + extra - discount }

/-- `itemInternalTotal(item)` — the mode-driven fallback total used when an
item has no `itemMathById` entry; note it adds the extra profit but never
subtracts the discount. -/
def itemInternalTotal (it : Item) : ℚ :=
  let base :=
    match it.mode with
    | .QTY_PRICE =>
        let q := it.qty.getD 0
        let u := it.unit_price_base.getD 0
        if q = 0 then u else q * u
    | .SINGLE_TOTAL => it.base_total
  base + (if it.extra_profit_enabled then it.extra_profit_amount else 0)

/-- `allItemIds.has(p)` for the working set `l`. -/
def hasId (l : List Item) (p : Nat) : Bool :=
  l.any (fun j => j.id = p)

/-- `it.parent_item_id == null || !allItemIds.has(it.parent_item_id)`. -/
def isTopLevel (l : List Item) (it : Item) : Bool :=
  match it.parent_item_id with
  | none => true
  | some p => !hasId l p

def topLevelItems (l : List Item) : List Item :=
  l.filter (isTopLevel l)

/-- `reduce((acc, it) => acc + total(it), 0)`. -/
def sumTotals (l : List Item) : ℚ :=
  l.foldl (fun acc it => acc + (itemMath it).total) 0

/-- `expensesDisplay` — sum of top-level item totals. -/
def expensesDisplay (l : List Item) : ℚ :=
  sumTotals (topLevelItems l)

/-- `extraProfitDisplay` — sum of top-level items' `extra`. -/
def extraProfitDisplay (l : List Item) : ℚ :=
  (topLevelItems l).foldl (fun acc it => acc + (itemMath it).extra) 0

/-- `discountDisplay` — sum of top-level items' `discount`. -/
def discountDisplay (l : List Item) : ℚ :=
  (topLevelItems l).foldl (fun acc it => acc + (itemMath it).discount) 0

/-- Items of group `g` (`items.filter(it => it.group_id === g.id)`). -/
def groupItems (l : List Item) (g : Nat) : List Item :=
  l.filter (fun it => it.group_id = g)

/-- Top-level items of group `g`: the parent must be absent from the
GROUP's own id set (`groupItemIds`). -/
def groupTopLevel (l : List Item) (g : Nat) : List Item :=
  (groupItems l g).filter (isTopLevel (groupItems l g))

/-- The per-group money total shown in the group header and used as the
per-group agency-fee base. -/
def groupBaseTotal (l : List Item) (g : Nat) : ℚ :=
  sumTotals (groupTopLevel l g)

/-- The value rendered in the extra-profit cell of an item's row: an
enabled item shows its own draft amount; a disabled parent with sub-items
shows its own `itemMathById` entry's `extra` (a read-only field); in every
case the rendered number is the row's own `extra`. -/
def rowExtraShown (it : Item) : ℚ :=
  (itemMath it).extra

/-! ## Fee and tax model (ProjectPage.tsx) -/

/-- `symmetricPercentPart(total, percent)`; on `ℚ` the `Number.isFinite`
guards of the source are vacuous. -/
def symmetricPercentPart (total percent : ℚ) : ℚ :=
  if total ≤ 0 ∨ percent ≤ 0 then 0 else total * (percent / 100)

/-- `commonAgencyAmount` — the project-wide toggle computes the fee on the
PROJECT PRICE argument, never on the expense total. -/
def commonAgencyAmount (isCommonAgencyOpen : Bool) (projectPrice agencyPercent : ℚ) : ℚ :=
  if isCommonAgencyOpen then symmetricPercentPart projectPrice agencyPercent else 0

inductive UsnMode
  | LEGAL
  | OPERATIONAL
deriving DecidableEq, Repr

/-- The slice of page state that feeds the financial summary:
`projectPrice` is `projectPriceDisplayValue`, `agencyPercent` is
`project.agency_fee_percent`, `usn_rate_percent` is the persisted
`AppSettings.usn_rate_percent` (`none` when no settings row is loaded),
and the payment lists carry the persisted amounts. -/
structure ProjectState where
  projectPrice : ℚ
  agencyPercent : ℚ
  groups : List Nat
  groupAgencyEnabled : Nat → Bool
  isCommonAgencyOpen : Bool
  items : List Item
  planAmounts : List ℚ
  factAmounts : List ℚ
  usnMode : UsnMode
  usn_rate_percent : Option ℚ

/-- `usnRate = Number(appSettings?.usn_rate_percent || 6)` — JavaScript `||`
falls back on every falsy left operand, so BOTH an absent settings row and
an explicitly stored rate of 0 yield the effective rate 6; any other
stored rate passes through unchanged. -/
def usnRate (st : ProjectState) : ℚ :=
  match st.usn_rate_percent with
  | none => 6
  | some r => if r = 0 then 6 else r

/-- `paymentsTotal` — fold over the combined plan and fact rows.  For
every persisted row the draft amount round-trips to the stored amount, so
each summand is the row's amount. -/
def paymentsTotal (st : ProjectState) : ℚ :=
  (st.planAmounts ++ st.factAmounts).foldl (fun acc a => acc + a) 0

/-- `groupAgencyTotal` — sum of per-group fees over groups whose toggle is
on. -/
def groupAgencyTotal (st : ProjectState) : ℚ :=
  st.groups.foldl
    (fun acc g =>
      if st.groupAgencyEnabled g then
        acc + symmetricPercentPart (groupBaseTotal st.items g) st.agencyPercent
      else acc)
    0

def commonAgency (st : ProjectState) : ℚ :=
  commonAgencyAmount st.isCommonAgencyOpen st.projectPrice st.agencyPercent

def agencyTotalFromExpenses (st : ProjectState) : ℚ :=
  groupAgencyTotal st + commonAgency st

/-- `usnBaseForProject` — `LEGAL` taxes the combined payments total,
`OPERATIONAL` taxes expenses plus agency fee. -/
def usnBaseForProject (st : ProjectState) : ℚ :=
  match st.usnMode with
  | .LEGAL => paymentsTotal st
  | .OPERATIONAL => expensesDisplay st.items + agencyTotalFromExpenses st

/-- `usnAmount = usnBaseForProject > 0 ? usnBaseForProject * usnRate / 100 : 0`. -/
def usnAmount (st : ProjectState) : ℚ :=
  if 0 < usnBaseForProject st then usnBaseForProject st * usnRate st / 100 else 0

def inPocketDisplay (st : ProjectState) : ℚ :=
  agencyTotalFromExpenses st + extraProfitDisplay st.items - discountDisplay st.items

def diffDisplay (st : ProjectState) : ℚ :=
  st.projectPrice - (expensesDisplay st.items + agencyTotalFromExpenses st + usnAmount st)

/-! ## Draft-to-persisted item writes (`payloadFromDraft`)

The draft's string fields are taken after parsing:
`parseNonNegative(raw, fld, optional := true)` yields `none` for the empty
string, throws on an unparseable or negative number, else yields the
value; so its successful results are modelled as `Option ℚ` arguments
together with the in-range checks the function re-runs. -/

structure ItemSheetDraftNums where
  qty : Option ℚ
  unit_price_base : Option ℚ
  base_total : Option ℚ
  extra_profit_enabled : Bool
  extra_profit_amount : Option ℚ
  discount_enabled : Bool
  discount_amount : Option ℚ

structure ItemPayload where
  mode : ItemMode
  qty : Option ℚ
  unit_price_base : Option ℚ
  base_total : ℚ
  extra_profit_enabled : Bool
  extra_profit_amount : ℚ
  discount_enabled : Bool
  discount_amount : ℚ
deriving DecidableEq, Repr

/-- `parseNonNegative` on an already-parsed optional field: `none` stands
for the cleared field, a negative value throws. -/
def chkNonneg (x : Option ℚ) (fld : String) : Except String (Option ℚ) :=
  match x with
  | none => .ok none
  | some v => if v < 0 then .error fld else .ok (some v)

/-- `draft.extra_profit_enabled ? (parseNonNegative(...) || 0) : 0` — the
amount is only parsed (and checked non-negative) when the toggle is on. -/
def extraFromDraft (d : ItemSheetDraftNums) : Except String ℚ :=
  if d.extra_profit_enabled then
    match d.extra_profit_amount with
    | none => Except.error ("extra_profit_amount")
    | some v => if v < 0 then Except.error ("extra_profit_amount") else Except.ok v
  else Except.ok 0

/-- `draft.discount_enabled ? (parseSigned(...) || 0) : 0` — signed, so no
non-negativity check. -/
def discountFromDraft (d : ItemSheetDraftNums) : Except String ℚ :=
  if d.discount_enabled then
    match d.discount_amount with
    | none => Except.error ("discount_amount")
    | some v => Except.ok v
  else Except.ok 0

/-- `payloadFromDraft(draft)`: a present quantity forces `QTY_PRICE` with
`base_total = qty == 0 ? unit : qty * unit` and requires a unit price;
otherwise `SINGLE_TOTAL` with `base_total = baseTotal ?? unitPrice ?? 0`. -/
def payloadFromDraft (d : ItemSheetDraftNums) : Except String ItemPayload := do
  let qty ← chkNonneg d.qty ("qty")
  let unitPrice ← chkNonneg d.unit_price_base ("unit_price_base")
  let baseTotal ← chkNonneg d.base_total ("base_total")
  let extraProfit ← extraFromDraft d
  let discountAmount ← discountFromDraft d
  match qty with
  | some q =>
      match unitPrice with
      | none => Except.error ("unit price required when qty is set")
      | some u =>
          Except.ok
            { mode := .QTY_PRICE, qty := some q, unit_price_base := some u,
              base_total := if q = 0 then u else q * u,
              extra_profit_enabled := d.extra_profit_enabled,
              extra_profit_amount := extraProfit,
              discount_enabled := d.discount_enabled,
              discount_amount := discountAmount }
  | none =>
      Except.ok
        { mode := .SINGLE_TOTAL, qty := none, unit_price_base := unitPrice,
          base_total := baseTotal.getD (unitPrice.getD 0),
          extra_profit_enabled := d.extra_profit_enabled,
          extra_profit_amount := extraProfit,
          discount_enabled := d.discount_enabled,
          discount_amount := discountAmount }

/-- Attach location fields to a written payload, giving the persisted item. -/
def ItemPayload.toItem (p : ItemPayload) (id group_id : Nat) (parent : Option Nat) : Item :=
  { id := id, group_id := group_id, parent_item_id := parent,
    mode := p.mode, qty := p.qty, unit_price_base := p.unit_price_base,
    base_total := p.base_total,
    extra_profit_enabled := p.extra_profit_enabled,
    extra_profit_amount := p.extra_profit_amount,
    discount_enabled := p.discount_enabled,
    discount_amount := p.discount_amount }

/-- The claim's mode-driven base: `base_total` under `SINGLE_TOTAL`,
`qty == 0 ? unit_price : qty * unit_price` under `QTY_PRICE`.  Stated from
the specification's words for comparison with the engine. -/
def claimItemBase (it : Item) : ℚ :=
  match it.mode with
  | .QTY_PRICE =>
      if it.qty.getD 0 = 0 then it.unit_price_base.getD 0
      else it.qty.getD 0 * it.unit_price_base.getD 0
  | .SINGLE_TOTAL => it.base_total

/-! ## Plan/fact payment routing (`persistPaymentRow`)

Payment dates are the canonical `YYYY-MM-DD` strings produced by
`parseFlexibleDate`; the source compares them with JavaScript string `>`,
i.e. lexicographic order, embedded as `String`'s `<`. -/

inductive PayKind
  | plan
  | fact
deriving DecidableEq, Repr

structure PayRec where
  id : Nat
  pay_date : String
  amount : ℚ
  note : String
deriving DecidableEq, Repr

structure PayState where
  plans : List PayRec
  facts : List PayRec
deriving DecidableEq, Repr

/-- JavaScript `<` on strings: lexicographic comparison by code unit (our
dates are ASCII, so code units and code points coincide). -/
def jsStrLtb : List Char → List Char → Bool
  | [], [] => false
  | [], _ :: _ => true
  | _ :: _, [] => false
  | a :: as, b :: bs =>
      if a.toNat < b.toNat then true
      else if b.toNat < a.toNat then false
      else jsStrLtb as bs

/-- The routing rule: `payDate > todayISO() ? "plan" : "fact"` — a future
date goes to the plan table, today or a past date to the fact table. -/
def classify (payDate today : String) : PayKind :=
  if jsStrLtb today.data payDate.data then .plan else .fact

/-- A `PATCH` on one row of a table. -/
def updateRec (l : List PayRec) (i : Nat) (d : String) (a : ℚ) (n : String) : List PayRec :=
  l.map (fun r => if r.id = i then { r with pay_date := d, amount := a, note := n } else r)

/-- A `DELETE` of one row of a table. -/
def removeRec (l : List PayRec) (i : Nat) : List PayRec :=
  l.filter (fun r => r.id ≠ i)

structure PaymentDraftNums where
  pay_date : Option String
  amount : Option ℚ
  note : String

/-- `persistPaymentRow(kind, id, draft)`: parse the date (missing date
throws), parse the non-negative amount, classify the date against today;
a same-table result patches the row in place, a crossing result posts a
new row (fresh identity) to the target table with the same date, amount
and note and deletes the old row from the source table. -/
def persistPaymentRow (kind : PayKind) (i : Nat) (draft : PaymentDraftNums)
    (today : String) (freshId : Nat) (st : PayState) : Except String PayState :=
  match draft.pay_date with
  | none => .error ("pay_date")
  | some payDate =>
      match draft.amount with
      | none => .error ("amount")
      | some amount =>
          if amount < 0 then .error ("amount")
          else
            let targetKind := classify payDate today
            if targetKind = kind then
              match kind with
              | .plan => .ok { st with plans := updateRec st.plans i payDate amount draft.note }
              | .fact => .ok { st with facts := updateRec st.facts i payDate amount draft.note }
            else
              match targetKind with
              | .plan =>
                  .ok { plans := st.plans ++ [⟨freshId, payDate, amount, draft.note⟩],
                        facts := removeRec st.facts i }
              | .fact =>
                  .ok { plans := removeRec st.plans i,
                        facts := st.facts ++ [⟨freshId, payDate, amount, draft.note⟩] }

/-! ## Helper lemmas -/

theorem foldl_add_eq {α : Type} (f : α → ℚ) (l : List α) (a : ℚ) :
    l.foldl (fun acc x => acc + f x) a = a + (l.map f).sum := by
  induction l generalizing a with
  | nil => simp
  | cons x xs ih => simp [ih, add_assoc]

theorem sumTotals_eq_sum (l : List Item) :
    sumTotals l = (l.map (fun it => (itemMath it).total)).sum := by
  simpa using foldl_add_eq (fun it => (itemMath it).total) l 0

theorem hasId_append_one (l : List Item) (x : Item) (p : Nat) :
    hasId (l ++ [x]) p = (hasId l p || decide (x.id = p)) := by
  simp [hasId]

theorem isTopLevel_append_irrelevant (l : List Item) (sub j : Item)
    (h : j.parent_item_id ≠ some sub.id) :
    isTopLevel (l ++ [sub]) j = isTopLevel l j := by
  cases hp : j.parent_item_id with
  | none => simp [isTopLevel, hp]
  | some q =>
      have hq : sub.id ≠ q := by
        intro e
        exact h (by rw [hp, e])
      simp [isTopLevel, hp, hasId_append_one, hq]

theorem topLevelItems_append_sub (l : List Item) (sub : Item) (p : Nat)
    (hsub : sub.parent_item_id = some p) (hp : hasId l p = true)
    (hnochild : ∀ j ∈ l, j.parent_item_id ≠ some sub.id) :
    topLevelItems (l ++ [sub]) = topLevelItems l := by
  unfold topLevelItems
  rw [List.filter_append]
  have hsubtop : isTopLevel (l ++ [sub]) sub = false := by
    simp [isTopLevel, hsub, hasId_append_one, hp]
  have h2 : [sub].filter (isTopLevel (l ++ [sub])) = [] := by
    simp [List.filter, hsubtop]
  rw [h2, List.append_nil]
  exact List.filter_congr (fun j hj => isTopLevel_append_irrelevant l sub j (hnochild j hj))

theorem groupItems_append_one (l : List Item) (x : Item) (g : Nat) :
    groupItems (l ++ [x]) g = groupItems l g ++ (if x.group_id = g then [x] else []) := by
  simp only [groupItems, List.filter_append]
  congr 1
  by_cases h : x.group_id = g <;> simp [List.filter, h]

theorem groupTopLevel_eq_topLevel (l : List Item) (g : Nat) :
    groupTopLevel l g = topLevelItems (groupItems l g) := rfl

/-! ## Claim theorems -/

/-- C2: the group total and the project expenses total are the plain sums of
the totals of the top-level items of the respective working set (the whole
item list for the project, the group's items for a group), and appending a
sub-item — an item whose parent is present in the working set — leaves both
money totals unchanged: sub-items never contribute a separate summand. -/
theorem c2_top_level_sums (l : List Item) (sub : Item) (p : Nat)
    (hsub : sub.parent_item_id = some p)
    (hnochild : ∀ j ∈ l, j.parent_item_id ≠ some sub.id) :
    expensesDisplay l = ((topLevelItems l).map (fun it => (itemMath it).total)).sum
    ∧ (∀ g, groupBaseTotal l g = ((groupTopLevel l g).map (fun it => (itemMath it).total)).sum)
    ∧ (hasId l p = true → expensesDisplay (l ++ [sub]) = expensesDisplay l)
    ∧ (hasId (groupItems l sub.group_id) p = true →
        groupBaseTotal (l ++ [sub]) sub.group_id = groupBaseTotal l sub.group_id) := by
  refine ⟨sumTotals_eq_sum _, fun g => sumTotals_eq_sum _, fun hp => ?_, fun hpg => ?_⟩
  · unfold expensesDisplay
    rw [topLevelItems_append_sub l sub p hsub hp hnochild]
  · unfold groupBaseTotal
    rw [groupTopLevel_eq_topLevel, groupTopLevel_eq_topLevel,
        groupItems_append_one, if_pos rfl,
        topLevelItems_append_sub (groupItems l sub.group_id) sub p hsub hpg
          (fun j hj => hnochild j (List.mem_filter.mp hj).1)]

/-- C2 witness: a project with one parent item and one nested sub-item; the
sub-item changes neither the project expenses total nor its group's total. -/
theorem c2_top_level_sums_witness :
    let parent : Item :=
      { id := 1, group_id := 7, parent_item_id := none, mode := .SINGLE_TOTAL,
        qty := none, unit_price_base := none, base_total := 100,
        extra_profit_enabled := false, extra_profit_amount := 0,
        discount_enabled := false, discount_amount := 0 }
    let sub : Item :=
      { id := 2, group_id := 7, parent_item_id := some 1, mode := .SINGLE_TOTAL,
        qty := none, unit_price_base := none, base_total := 55,
        extra_profit_enabled := false, extra_profit_amount := 0,
        discount_enabled := false, discount_amount := 0 }
    expensesDisplay [parent, sub] = expensesDisplay [parent]
    ∧ groupBaseTotal [parent, sub] 7 = groupBaseTotal [parent] 7 := by
  intro parent sub
  have h := c2_top_level_sums [parent] sub 1 rfl (by decide)
  exact ⟨h.2.2.1 (by decide), h.2.2.2 (by decide)⟩

/-- C3: the agency fee for a scope equals `scope_total * percent / 100` when
both are positive, is 0 when either is non-positive, is never negative, and
the project-wide toggle computes the fee on the project price argument. -/
theorem c3_agency_fee (s p price : ℚ) :
    (0 < s → 0 < p → symmetricPercentPart s p = s * (p / 100))
    ∧ (s ≤ 0 ∨ p ≤ 0 → symmetricPercentPart s p = 0)
    ∧ 0 ≤ symmetricPercentPart s p
    ∧ commonAgencyAmount true price p = symmetricPercentPart price p
    ∧ commonAgencyAmount false price p = 0 := by
  refine ⟨fun hs hp => ?_, fun h => ?_, ?_, rfl, rfl⟩
  · have hc : ¬ (s ≤ 0 ∨ p ≤ 0) := by
      push_neg
      exact ⟨hs, hp⟩
    simp [symmetricPercentPart, hc]
  · unfold symmetricPercentPart
    exact if_pos h
  · unfold symmetricPercentPart
    split_ifs with h
    · exact le_refl 0
    · push_neg at h
      exact mul_nonneg (le_of_lt h.1) (le_of_lt (div_pos h.2 (by norm_num)))

/-- C3 witness: a 200-total scope at 10 percent yields fee 20; percent 0 or
a non-positive scope total yields fee 0. -/
theorem c3_agency_fee_witness :
    symmetricPercentPart 200 10 = 20
    ∧ symmetricPercentPart 200 0 = 0
    ∧ symmetricPercentPart (-5) 10 = 0 := by
  have h := c3_agency_fee 200 10 100
  have h0 := c3_agency_fee 200 0 100
  have hneg := c3_agency_fee (-5) 10 100
  refine ⟨?_, h0.2.1 (Or.inr (by norm_num)), hneg.2.1 (Or.inl (by norm_num))⟩
  rw [h.1 (by norm_num) (by norm_num)]
  norm_num

/-- The C4 counterexample state: an OPERATIONAL project with a single
100-ruble expense whose persisted `usn_rate_percent` is exactly 0. -/
def c4ZeroRateState : ProjectState :=
  { projectPrice := 0, agencyPercent := 0, groups := [1],
    groupAgencyEnabled := fun _ => false, isCommonAgencyOpen := false,
    items := [{ id := 1, group_id := 1, parent_item_id := none, mode := .SINGLE_TOTAL,
                qty := none, unit_price_base := none, base_total := 100,
                extra_profit_enabled := false, extra_profit_amount := 0,
                discount_enabled := false, discount_amount := 0 }],
    planAmounts := [], factAmounts := [], usnMode := .OPERATIONAL,
    usn_rate_percent := some 0 }

/-- C4 counterexample: with a stored rate of 0 and basis 100, the claimed
formula `max(basis, 0) * rate / 100` gives 0, but the program's
`Number(usn_rate_percent || 6)` coercion replaces the falsy 0 with 6 and
taxes 6 — the claim as stated is false at this input. -/
theorem c4_usn_zero_rate_counterexample :
    c4ZeroRateState.usn_rate_percent = some 0
    ∧ usnBaseForProject c4ZeroRateState = 100
    ∧ usnAmount c4ZeroRateState = 6
    ∧ max (usnBaseForProject c4ZeroRateState) 0 * 0 / 100 = 0
    ∧ usnAmount c4ZeroRateState ≠ max (usnBaseForProject c4ZeroRateState) 0 * 0 / 100 := by
  refine ⟨rfl, ?_, ?_, ?_, ?_⟩ <;>
    norm_num [usnAmount, usnBaseForProject, usnRate, paymentsTotal, expensesDisplay,
      agencyTotalFromExpenses, groupAgencyTotal, commonAgency, commonAgencyAmount,
      symmetricPercentPart, sumTotals, topLevelItems, isTopLevel, itemMath, clamp0,
      List.filter, c4ZeroRateState]

/-- C4 amended: the USN basis is the combined plan-plus-fact payments total
under `LEGAL` and the expense total plus the agency fee total under
`OPERATIONAL`; the tax amount equals `max(basis, 0) * r / 100` where `r`
is the EFFECTIVE rate `Number(usn_rate_percent || 6)` — the stored rate
when it is present and nonzero, and 6 when the stored rate is 0 or the
settings are absent — and the tax is never negative when every stored
rate is non-negative. -/
theorem c4_usn_basis_and_amount (st : ProjectState) :
    (st.usnMode = .LEGAL → usnBaseForProject st = paymentsTotal st)
    ∧ (st.usnMode = .OPERATIONAL →
        usnBaseForProject st = expensesDisplay st.items + agencyTotalFromExpenses st)
    ∧ paymentsTotal st = st.planAmounts.sum + st.factAmounts.sum
    ∧ usnAmount st = max (usnBaseForProject st) 0 * usnRate st / 100
    ∧ (∀ r, st.usn_rate_percent = some r → r ≠ 0 → usnRate st = r)
    ∧ (st.usn_rate_percent = some 0 ∨ st.usn_rate_percent = none → usnRate st = 6)
    ∧ ((∀ r, st.usn_rate_percent = some r → 0 ≤ r) → 0 ≤ usnAmount st) := by
  have hrate : (∀ r, st.usn_rate_percent = some r → 0 ≤ r) → 0 ≤ usnRate st := by
    intro hsr
    unfold usnRate
    cases hx : st.usn_rate_percent with
    | none => norm_num
    | some r =>
        by_cases hz : r = 0
        · simp [hz]
        · simp [hz]
          exact hsr r hx
  refine ⟨fun h => ?_, fun h => ?_, ?_, ?_, fun r hr hnz => ?_, fun hor => ?_, fun hsr => ?_⟩
  · unfold usnBaseForProject
    rw [h]
  · unfold usnBaseForProject
    rw [h]
  · unfold paymentsTotal
    have := foldl_add_eq (fun a : ℚ => a) (st.planAmounts ++ st.factAmounts) 0
    simpa using this
  · unfold usnAmount
    split_ifs with h
    · rw [max_eq_left (le_of_lt h)]
    · push_neg at h
      rw [max_eq_right h]
      ring
  · unfold usnRate
    rw [hr]
    simp [hnz]
  · unfold usnRate
    rcases hor with hx | hx <;> simp [hx]
  · unfold usnAmount
    split_ifs with h
    · have h6 := hrate hsr
      positivity
    · exact le_refl 0

/-- C4 witness: `LEGAL` basis on payments 100+200+50 with stored rate 6
(nonzero, so passed through) gives a non-negative tax. -/
theorem c4_usn_witness :
    let stL : ProjectState :=
      { projectPrice := 1000, agencyPercent := 10, groups := [], groupAgencyEnabled := fun _ => false,
        isCommonAgencyOpen := false, items := [], planAmounts := [100, 200], factAmounts := [50],
        usnMode := .LEGAL, usn_rate_percent := some 6 }
    usnBaseForProject stL = 350 ∧ usnRate stL = 6 ∧ 0 ≤ usnAmount stL := by
  intro stL
  have h := c4_usn_basis_and_amount stL
  refine ⟨?_, h.2.2.2.2.1 6 rfl (by norm_num), ?_⟩
  · rw [h.1 rfl, h.2.2.1]
    norm_num
  · refine h.2.2.2.2.2.2 (fun r hr => ?_)
    injection hr with h2
    rw [← h2]
    norm_num

/-- The end-to-end scenario of C5: price 100000, one group with a single
40000 item, the project-wide agency toggle on at 10 percent, OPERATIONAL
USN at 6 percent. -/
def c5Scenario1 : ProjectState :=
  { projectPrice := 100000, agencyPercent := 10, groups := [1],
    groupAgencyEnabled := fun _ => false, isCommonAgencyOpen := true,
    items := [{ id := 1, group_id := 1, parent_item_id := none, mode := .SINGLE_TOTAL,
                qty := none, unit_price_base := none, base_total := 40000,
                extra_profit_enabled := false, extra_profit_amount := 0,
                discount_enabled := false, discount_amount := 0 }],
    planAmounts := [], factAmounts := [], usnMode := .OPERATIONAL,
    usn_rate_percent := some 6 }

/-- The negative-discount scenario of C5: a 40000 item with an enabled
discount of -5000 (a discount received from the vendor). -/
def c5DiscountItem : Item :=
  { id := 1, group_id := 1, parent_item_id := none, mode := .SINGLE_TOTAL,
    qty := none, unit_price_base := none, base_total := 40000,
    extra_profit_enabled := false, extra_profit_amount := 0,
    discount_enabled := true, discount_amount := -5000 }

def c5Scenario2 : ProjectState :=
  { projectPrice := 100000, agencyPercent := 10, groups := [1],
    groupAgencyEnabled := fun _ => false, isCommonAgencyOpen := false,
    items := [c5DiscountItem],
    planAmounts := [], factAmounts := [], usnMode := .OPERATIONAL,
    usn_rate_percent := some 6 }

/-- C5: `in_pocket` is the agency fee total plus the extra-profit total
minus the signed discount total, `diff` is the project price minus
expenses, agency fee and tax; the end-to-end scenario evaluates to
expenses 40000, fee 10000, basis 50000, tax 3000, diff 47000, and the
negative-discount scenario raises the item total to 45000 and contributes
+5000 to `in_pocket`. -/
theorem c5_in_pocket_and_diff :
    (∀ st : ProjectState,
        inPocketDisplay st
          = agencyTotalFromExpenses st + extraProfitDisplay st.items - discountDisplay st.items
        ∧ diffDisplay st
          = st.projectPrice
            - (expensesDisplay st.items + agencyTotalFromExpenses st + usnAmount st))
    ∧ expensesDisplay c5Scenario1.items = 40000
    ∧ agencyTotalFromExpenses c5Scenario1 = 10000
    ∧ usnBaseForProject c5Scenario1 = 50000
    ∧ usnAmount c5Scenario1 = 3000
    ∧ diffDisplay c5Scenario1 = 47000
    ∧ (itemMath c5DiscountItem).total = 45000
    ∧ discountDisplay c5Scenario2.items = -5000
    ∧ inPocketDisplay c5Scenario2 = 5000 := by
  refine ⟨fun st => ⟨rfl, rfl⟩, ?_, ?_, ?_, ?_, ?_, ?_, ?_, ?_⟩ <;>
    norm_num [expensesDisplay, extraProfitDisplay, discountDisplay, inPocketDisplay,
      diffDisplay, usnAmount, usnRate, usnBaseForProject, paymentsTotal, agencyTotalFromExpenses,
      groupAgencyTotal, commonAgency, commonAgencyAmount, symmetricPercentPart,
      groupBaseTotal, groupTopLevel, groupItems, sumTotals, topLevelItems, isTopLevel,
      itemMath, clamp0, List.filter, c5Scenario1, c5Scenario2, c5DiscountItem]

/-- The C6 counterexample items: a parent with extra-profit disabled and a
sub-item with extra-profit 500 enabled. -/
def c6Parent : Item :=
  { id := 1, group_id := 1, parent_item_id := none, mode := .SINGLE_TOTAL,
    qty := none, unit_price_base := none, base_total := 40000,
    extra_profit_enabled := false, extra_profit_amount := 0,
    discount_enabled := false, discount_amount := 0 }

def c6Child : Item :=
  { id := 2, group_id := 1, parent_item_id := some 1, mode := .SINGLE_TOTAL,
    qty := none, unit_price_base := none, base_total := 0,
    extra_profit_enabled := true, extra_profit_amount := 500,
    discount_enabled := false, discount_amount := 0 }

/-- C6 counterexample: the parent has extra-profit disabled and a sub-item
with extra-profit 500, yet the parent's row shows an extra of 0 and the
extra-profit aggregate over the working set is 0 — the sub-item's amount
does not flow into the parent's displayed aggregate, contradicting the
claim that it contributes exactly when the parent is disabled. -/
theorem c6_subitem_extra_counterexample :
    c6Parent.extra_profit_enabled = false
    ∧ c6Child.parent_item_id = some c6Parent.id
    ∧ (itemMath c6Child).extra = 500
    ∧ rowExtraShown c6Parent = 0
    ∧ extraProfitDisplay [c6Parent, c6Child] = 0
    ∧ ¬ extraProfitDisplay [c6Parent, c6Child] = 500 := by
  refine ⟨rfl, rfl, ?_, ?_, ?_, ?_⟩ <;>
    norm_num [extraProfitDisplay, rowExtraShown, topLevelItems, isTopLevel, hasId,
      itemMath, clamp0, List.filter, c6Parent, c6Child]

/-- C6 amended: a sub-item's extra-profit never contributes to the
extra-profit aggregate shown at the parent's row — every row's cell shows
only that item's own extra, which is 0 whenever its own toggle is off —
and a sub-item never contributes a separate summand to the group's or the
project's money totals. -/
theorem c6_subitem_extra_amended (l : List Item) (sub : Item) (p : Nat)
    (hsub : sub.parent_item_id = some p)
    (hp : hasId l p = true)
    (hnochild : ∀ j ∈ l, j.parent_item_id ≠ some sub.id) :
    extraProfitDisplay (l ++ [sub]) = extraProfitDisplay l
    ∧ (∀ it : Item,
        rowExtraShown it = if it.extra_profit_enabled then clamp0 it.extra_profit_amount else 0)
    ∧ (hasId (groupItems l sub.group_id) p = true →
        groupBaseTotal (l ++ [sub]) sub.group_id = groupBaseTotal l sub.group_id)
    ∧ expensesDisplay (l ++ [sub]) = expensesDisplay l := by
  refine ⟨?_, fun it => rfl, fun hpg => ?_, ?_⟩
  · unfold extraProfitDisplay
    rw [topLevelItems_append_sub l sub p hsub hp hnochild]
  · unfold groupBaseTotal
    rw [groupTopLevel_eq_topLevel, groupTopLevel_eq_topLevel,
        groupItems_append_one, if_pos rfl,
        topLevelItems_append_sub (groupItems l sub.group_id) sub p hsub hpg
          (fun j hj => hnochild j (List.mem_filter.mp hj).1)]
  · unfold expensesDisplay
    rw [topLevelItems_append_sub l sub p hsub hp hnochild]

/-- C6 amended witness: adding the extra-profit-enabled sub-item to the
parent's working set changes neither the extra-profit aggregate nor the
group money total. -/
theorem c6_subitem_extra_amended_witness :
    extraProfitDisplay [c6Parent, c6Child] = extraProfitDisplay [c6Parent]
    ∧ groupBaseTotal [c6Parent, c6Child] 1 = groupBaseTotal [c6Parent] 1 := by
  have h := c6_subitem_extra_amended [c6Parent] c6Child 1 rfl (by decide) (by decide)
  exact ⟨h.1, h.2.2.1 (by decide)⟩

theorem except_bind_ok {α β : Type} (x : Except String α) (f : α → Except String β) (b : β)
    (h : (x >>= f) = .ok b) : ∃ a, x = .ok a ∧ f a = .ok b := by
  cases x with
  | error e => simp [Bind.bind, Except.bind] at h
  | ok a => exact ⟨a, rfl, by simpa [Bind.bind, Except.bind] using h⟩

theorem chkNonneg_ok (x : Option ℚ) (fld : String) (y : Option ℚ)
    (h : chkNonneg x fld = .ok y) : y = x ∧ ∀ q, y = some q → 0 ≤ q := by
  cases x with
  | none =>
      simp [chkNonneg] at h
      subst h
      exact ⟨rfl, fun q hq => by simp at hq⟩
  | some v =>
      simp only [chkNonneg] at h
      by_cases hv : v < 0
      · rw [if_pos hv] at h
        exact absurd h (by simp)
      · rw [if_neg hv] at h
        injection h with h2
        subst h2
        refine ⟨rfl, fun q hq => ?_⟩
        have hvq : v = q := by injection hq
        exact hvq ▸ le_of_not_lt hv

/-- Everything `payloadFromDraft` guarantees about a successfully written
payload. -/
theorem payloadFromDraft_ok_props (d : ItemSheetDraftNums) (pl : ItemPayload)
    (h : payloadFromDraft d = .ok pl) :
    0 ≤ pl.base_total
    ∧ 0 ≤ pl.extra_profit_amount
    ∧ (pl.mode = .QTY_PRICE ↔ pl.qty.isSome)
    ∧ (∀ q, pl.qty = some q →
        0 ≤ q ∧ ∃ u, pl.unit_price_base = some u ∧ 0 ≤ u
          ∧ pl.base_total = (if q = 0 then u else q * u))
    ∧ (pl.extra_profit_enabled = false → pl.extra_profit_amount = 0)
    ∧ (pl.discount_enabled = false → pl.discount_amount = 0) := by
  unfold payloadFromDraft at h
  obtain ⟨qty, hqty, h⟩ := except_bind_ok _ _ _ h
  obtain ⟨unitPrice, hunit, h⟩ := except_bind_ok _ _ _ h
  obtain ⟨baseTotal, hbase, h⟩ := except_bind_ok _ _ _ h
  obtain ⟨extraProfit, hextra, h⟩ := except_bind_ok _ _ _ h
  obtain ⟨discountAmount, hdisc, h⟩ := except_bind_ok _ _ _ h
  have hExtraProps : 0 ≤ extraProfit ∧ (d.extra_profit_enabled = false → extraProfit = 0) := by
    cases he : d.extra_profit_enabled with
    | false =>
        simp only [extraFromDraft, he, if_false, Bool.false_eq_true] at hextra
        simp at hextra
        subst hextra
        exact ⟨le_refl 0, fun _ => rfl⟩
    | true =>
        simp only [extraFromDraft, he, if_true] at hextra
        cases hea : d.extra_profit_amount with
        | none => rw [hea] at hextra; simp at hextra
        | some v =>
            simp only [hea] at hextra
            by_cases hv : v < 0
            · rw [if_pos hv] at hextra
              exact absurd hextra (by simp)
            · rw [if_neg hv] at hextra
              injection hextra with h2
              subst h2
              exact ⟨le_of_not_lt hv, fun hfalse => Bool.noConfusion hfalse⟩
  have hDiscProps : d.discount_enabled = false → discountAmount = 0 := by
    intro hde
    simp only [discountFromDraft, hde, if_false, Bool.false_eq_true] at hdisc
    simp at hdisc
    exact hdisc.symm
  obtain ⟨hqeq, hqpos⟩ := chkNonneg_ok _ _ _ hqty
  obtain ⟨hueq, hupos⟩ := chkNonneg_ok _ _ _ hunit
  obtain ⟨hbeq, hbpos⟩ := chkNonneg_ok _ _ _ hbase
  cases hq : qty with
  | some q =>
      rw [hq] at h
      cases hu : unitPrice with
      | none => rw [hu] at h; simp at h
      | some u =>
          rw [hu] at h
          simp at h
          subst h
          refine ⟨?_, hExtraProps.1, by simp, ?_, fun hf => hExtraProps.2 hf, hDiscProps⟩
          · have h0q : 0 ≤ q := hqpos q hq
            have h0u : 0 ≤ u := hupos u hu
            by_cases hq0 : q = 0 <;> simp [hq0, h0u, mul_nonneg h0q h0u]
          · intro q2 hq2
            simp at hq2
            subst hq2
            exact ⟨hqpos q hq, u, rfl, hupos u hu, by simp⟩
  | none =>
      rw [hq] at h
      simp at h
      subst h
      refine ⟨?_, hExtraProps.1, by simp, ?_, fun hf => hExtraProps.2 hf, hDiscProps⟩
      · cases hb : baseTotal with
        | some b => simp [hb]; exact hbpos b hb
        | none =>
            cases hu : unitPrice with
            | some u => simp [hb, hu]; exact hupos u hu
            | none => simp [hb, hu]
      · intro q2 hq2
        simp at hq2

/-- The draft and the payload used by the C1 witness: a QTY_PRICE item with
quantity 3, unit price 150, extra profit 20 and discount -10. -/
def c1WitnessDraft : ItemSheetDraftNums :=
  { qty := some 3, unit_price_base := some 150, base_total := none,
    extra_profit_enabled := true, extra_profit_amount := some 20,
    discount_enabled := true, discount_amount := some (-10) }

def c1WitnessPayload : ItemPayload :=
  { mode := .QTY_PRICE, qty := some 3, unit_price_base := some 150, base_total := 450,
    extra_profit_enabled := true, extra_profit_amount := 20,
    discount_enabled := true, discount_amount := -10 }

def c1QtyDraft (q : ℚ) : ItemSheetDraftNums :=
  { qty := some q, unit_price_base := some 150, base_total := none,
    extra_profit_enabled := false, extra_profit_amount := none,
    discount_enabled := false, discount_amount := none }

/-- C1: for every item written through `payloadFromDraft`, the engine's
computed total equals the mode-driven base — `base_total` for
SINGLE_TOTAL, `qty == 0 ? unit_price : qty * unit_price` for QTY_PRICE —
plus the enabled extra profit minus the enabled discount; and the QTY_PRICE
write computes `base_total` 450 from qty 3 at unit price 150 and 150 from
qty 0 (the zero-quantity fallback). -/
theorem c1_item_total (d : ItemSheetDraftNums) (pl : ItemPayload)
    (idv gv : Nat) (par : Option Nat)
    (h : payloadFromDraft d = .ok pl) :
    (itemMath (pl.toItem idv gv par)).total
      = claimItemBase (pl.toItem idv gv par)
        + (if pl.extra_profit_enabled then pl.extra_profit_amount else 0)
        - (if pl.discount_enabled then pl.discount_amount else 0)
    ∧ (payloadFromDraft (c1QtyDraft 3)).map ItemPayload.base_total = .ok 450
    ∧ (payloadFromDraft (c1QtyDraft 0)).map ItemPayload.base_total = .ok 150 := by
  obtain ⟨hb0, he0, hmode, hqty, hedis, hddis⟩ := payloadFromDraft_ok_props d pl h
  refine ⟨?_, ?_, ?_⟩
  · have hne : ¬ pl.extra_profit_amount < 0 := not_lt.mpr he0
    have hnb : ¬ pl.base_total < 0 := not_lt.mpr hb0
    cases hq : pl.qty with
    | some q =>
        obtain ⟨h0q, u, hu, h0u, hbase⟩ := hqty q hq
        have hm : pl.mode = .QTY_PRICE := by
          rw [hmode, hq]
          rfl
        simp only [itemMath, claimItemBase, ItemPayload.toItem, hq, hu, hm]
        rw [if_pos ⟨h0q, h0u⟩]
        simp [clamp0, hne]
    | none =>
        have hm : pl.mode = .SINGLE_TOTAL := by
          cases hmm : pl.mode with
          | SINGLE_TOTAL => rfl
          | QTY_PRICE =>
              have := hmode.mp hmm
              rw [hq] at this
              simp at this
        simp only [itemMath, claimItemBase, ItemPayload.toItem, hq, hm]
        simp [clamp0, hne, hnb]
  · norm_num [payloadFromDraft, chkNonneg, extraFromDraft, discountFromDraft, c1QtyDraft, Except.map, bind, Except.bind]
  · norm_num [payloadFromDraft, chkNonneg, extraFromDraft, discountFromDraft, c1QtyDraft, Except.map, bind, Except.bind]

/-- C1 witness: the concrete QTY_PRICE draft produces a payload whose
computed total satisfies the mode-driven formula. -/
theorem c1_item_total_witness :
    payloadFromDraft c1WitnessDraft = .ok c1WitnessPayload
    ∧ (itemMath (c1WitnessPayload.toItem 5 2 none)).total
        = claimItemBase (c1WitnessPayload.toItem 5 2 none)
          + (if c1WitnessPayload.extra_profit_enabled then c1WitnessPayload.extra_profit_amount else 0)
          - (if c1WitnessPayload.discount_enabled then c1WitnessPayload.discount_amount else 0) := by
  have hok : payloadFromDraft c1WitnessDraft = .ok c1WitnessPayload := by
    norm_num [payloadFromDraft, chkNonneg, extraFromDraft, discountFromDraft, c1WitnessDraft, c1WitnessPayload, bind, Except.bind]
  exact ⟨hok, (c1_item_total c1WitnessDraft c1WitnessPayload 5 2 none hok).1⟩

theorem jsStrLtb_irrefl (l : List Char) : jsStrLtb l l = false := by
  induction l with
  | nil => rfl
  | cons a as ih => simp [jsStrLtb, ih]

/-- C7: a payment write is routed by `classify`: a date strictly after
today goes to the plan table (today itself counts as fact); a same-table
result patches the row in place, and a result crossing the boundary posts
a new record with the same date, amount and note to the other table and
deletes the old record from its table. -/
theorem c7_payment_routing (kind : PayKind) (i freshId : Nat) (d today note : String)
    (a : ℚ) (st : PayState) (ha : 0 ≤ a) :
    (classify d today = .plan ↔ jsStrLtb today.data d.data = true)
    ∧ (d = today → classify d today = .fact)
    ∧ (classify d today = .plan → kind = .plan →
        persistPaymentRow kind i ⟨some d, some a, note⟩ today freshId st
          = .ok { st with plans := updateRec st.plans i d a note })
    ∧ (classify d today = .fact → kind = .fact →
        persistPaymentRow kind i ⟨some d, some a, note⟩ today freshId st
          = .ok { st with facts := updateRec st.facts i d a note })
    ∧ (classify d today = .plan → kind = .fact →
        persistPaymentRow kind i ⟨some d, some a, note⟩ today freshId st
          = .ok { plans := st.plans ++ [⟨freshId, d, a, note⟩],
                  facts := removeRec st.facts i })
    ∧ (classify d today = .fact → kind = .plan →
        persistPaymentRow kind i ⟨some d, some a, note⟩ today freshId st
          = .ok { plans := removeRec st.plans i,
                  facts := st.facts ++ [⟨freshId, d, a, note⟩] }) := by
  have hnn : ¬ a < 0 := not_lt.mpr ha
  refine ⟨?_, fun hd => ?_, fun hcl hk => ?_, fun hcl hk => ?_, fun hcl hk => ?_, fun hcl hk => ?_⟩
  · unfold classify
    cases hlt : jsStrLtb today.data d.data <;> simp [hlt]
  · subst hd
    simp [classify, jsStrLtb_irrefl]
  all_goals subst hk
  all_goals simp [persistPaymentRow, hcl, hnn]

def c7Today : String := "2026-01-01"

def c7PayStateW : PayState :=
  { plans := [⟨1, "2026-01-05", 10, "x"⟩], facts := [⟨2, "2025-12-30", 20, "y"⟩] }

/-- C7 witness: editing fact row 2 to the future date 2026-01-05 moves it
to the plan table with the new date, amount and note, and removes the old
fact record. -/
theorem c7_payment_routing_witness :
    classify ("2026-01-05") c7Today = .plan
    ∧ persistPaymentRow .fact 2 ⟨some ("2026-01-05"), some 30, ("y2")⟩ c7Today 9 c7PayStateW
        = .ok { plans := c7PayStateW.plans ++ [⟨9, "2026-01-05", 30, "y2"⟩],
                facts := removeRec c7PayStateW.facts 2 } := by
  have h := c7_payment_routing .fact 2 9 ("2026-01-05") c7Today ("y2") 30 c7PayStateW (by norm_num)
  have hcl : classify ("2026-01-05") c7Today = .plan := h.1.mpr (by decide)
  exact ⟨hcl, h.2.2.2.2.1 hcl rfl⟩

theorem filter_not_dropWhile (p : Char → Bool) (l : List Char) :
    (l.dropWhile p).filter (fun c => !p c) = l.filter (fun c => !p c) := by
  induction l with
  | nil => rfl
  | cons c r ih =>
      by_cases hc : p c = true
      · simp [List.dropWhile_cons, List.filter_cons, hc, ih]
      · simp [List.dropWhile_cons, List.filter_cons, hc]

theorem stripJs_reverse (l : List Char) : stripJs l.reverse = (stripJs l).reverse := by
  simp [stripJs, List.filter_reverse]

theorem stripJs_dropWhile (l : List Char) :
    stripJs (l.dropWhile isJsSpace) = stripJs l :=
  filter_not_dropWhile isJsSpace l

theorem stripJs_trimJs (l : List Char) : stripJs (trimJs l) = stripJs l := by
  unfold trimJs
  rw [stripJs_reverse, stripJs_dropWhile, stripJs_reverse, List.reverse_reverse,
      stripJs_dropWhile]

theorem normalizeNumberText_eq_strip (l : List Char) :
    normalizeNumberText l = replaceFirstComma (stripJs l) := by
  unfold normalizeNumberText
  rw [stripJs_trimJs]

theorem parseInputNumberL_strip_invariant (l l' : List Char)
    (h : stripJs l = stripJs l') : parseInputNumberL l = parseInputNumberL l' := by
  unfold parseInputNumberL
  rw [normalizeNumberText_eq_strip, normalizeNumberText_eq_strip, h]

theorem replaceFirstComma_of_not_mem (l : List Char) (h : ',' ∉ l) :
    replaceFirstComma l = l := by
  induction l with
  | nil => rfl
  | cons c r ih =>
      have hc : ¬ c = ',' := fun e => h (e ▸ List.mem_cons_self c r)
      simp [replaceFirstComma, hc]
      exact ih (fun hm => h (List.mem_cons_of_mem c hm))

theorem replaceFirstComma_append_comma (a b : List Char) (h : ',' ∉ a) :
    replaceFirstComma (a ++ ',' :: b) = a ++ '.' :: b := by
  induction a with
  | nil => simp [replaceFirstComma]
  | cons c r ih =>
      have hc : ¬ c = ',' := fun e => h (e ▸ List.mem_cons_self c r)
      simp [replaceFirstComma, hc]
      exact ih (fun hm => h (List.mem_cons_of_mem c hm))

theorem stripJs_append (a b : List Char) : stripJs (a ++ b) = stripJs a ++ stripJs b := by
  simp [stripJs]

theorem stripJs_cons_keep (c : Char) (b : List Char) (hc : isJsSpace c = false) :
    stripJs (c :: b) = c :: stripJs b := by
  simp [stripJs, List.filter_cons, hc]

theorem not_mem_stripJs (a : List Char) (c : Char) (h : c ∉ a) : c ∉ stripJs a :=
  fun hm => h (List.mem_of_mem_filter hm)

/-- C8: `parseInputNumber` depends only on the input with every whitespace
character (including no-break spaces) removed; a single comma used as the
decimal separator parses exactly like a dot; the empty and all-whitespace
inputs parse to `null`, as does an unparseable input — and being a Lean
function the model is pure and total. -/
theorem c8_parse_input_number (l l' a b : List Char)
    (hll : stripJs l = stripJs l')
    (hca : (',' : Char) ∉ a) (hcb : (',' : Char) ∉ b) :
    parseInputNumberL l = parseInputNumberL l'
    ∧ parseInputNumberL (a ++ ',' :: b) = parseInputNumberL (a ++ '.' :: b)
    ∧ parseInputNumberL [] = none
    ∧ (∀ m : List Char, (∀ c ∈ m, isJsSpace c = true) → parseInputNumberL m = none)
    ∧ parseInputNumber ("abc") = none := by
  refine ⟨parseInputNumberL_strip_invariant l l' hll, ?_, rfl, fun m hm => ?_, by decide⟩
  · have hstrip : ∀ (c : Char), isJsSpace c = false →
        stripJs (a ++ c :: b) = stripJs a ++ c :: stripJs b := by
      intro c hc
      rw [stripJs_append, stripJs_cons_keep c b hc]
    unfold parseInputNumberL
    rw [normalizeNumberText_eq_strip, normalizeNumberText_eq_strip,
        hstrip ',' (by decide), hstrip '.' (by decide),
        replaceFirstComma_append_comma _ _ (not_mem_stripJs a ',' hca),
        replaceFirstComma_of_not_mem]
    intro hmem
    rcases List.mem_append.mp hmem with hx | hx
    · exact not_mem_stripJs a ',' hca hx
    · rcases List.mem_cons.mp hx with he | hx2
      · exact absurd he (by decide)
      · exact not_mem_stripJs b ',' hcb hx2
  · have hempty : stripJs m = [] := by
      rw [stripJs, List.filter_eq_nil_iff]
      intro c hc
      simp [hm c hc]
    rw [parseInputNumberL_strip_invariant m [] (by rw [hempty]; rfl)]
    rfl

/-- C8 witness: grouping spaces — including a no-break space — are ignored,
and the comma parses like the dot on `1234,5`. -/
theorem c8_parse_input_number_witness :
    parseInputNumber ("1 234,5") = parseInputNumber ("1 234,5")
    ∧ parseInputNumberL (("1234").data ++ ',' :: ("5").data)
        = parseInputNumberL (("1234").data ++ '.' :: ("5").data) := by
  have h := c8_parse_input_number ("1 234,5").data ("1 234,5").data
    ("1234").data ("5").data (by decide) (by decide) (by decide)
  exact ⟨h.1, h.2.1⟩

/-- C9: `formatDateParts` accepts exactly the real calendar dates in the
1900–2100 window (no clamping — a too-large day is rejected, not wrapped),
and `parseFlexibleDate` canonicalizes all four accepted layouts, maps a
2-digit year to 20xx, and rejects impossible dates such as April 31 and
February 29 of a non-leap year. -/
theorem c9_flexible_date :
    (∀ y m d : Nat, (formatDateParts y m d).isSome ↔
        (1900 ≤ y ∧ y ≤ 2100 ∧ 1 ≤ m ∧ m ≤ 12 ∧ 1 ≤ d ∧ d ≤ daysInMonth y m))
    ∧ parseFlexibleDate ("2024-06-05") = some ("2024-06-05")
    ∧ parseFlexibleDate ("5.6.24") = some ("2024-06-05")
    ∧ parseFlexibleDate ("5/6/2024") = some ("2024-06-05")
    ∧ parseFlexibleDate ("2024.6.5") = some ("2024-06-05")
    ∧ parseFlexibleDate ("2024-04-31") = none
    ∧ parseFlexibleDate ("31.04.2024") = none
    ∧ parseFlexibleDate ("29.02.2023") = none
    ∧ parseFlexibleDate ("29.02.2024") = some ("2024-02-29") := by
  refine ⟨fun y m d => ?_, by decide, by decide, by decide, by decide,
    by decide, by decide, by decide, by decide⟩
  have hdm : daysInMonth y m ≤ 31 := by
    unfold daysInMonth
    split_ifs <;> omega
  unfold formatDateParts
  split_ifs with h1 h2 h3 h4 <;> simp <;> omega


/-! ## The format/parse round trip (C10) -/

theorem digit_not_space (c : Char) (h : isDigitC c = true) : isJsSpace c = false := by
  have hb : 48 ≤ c.toNat ∧ c.toNat ≤ 57 := of_decide_eq_true h
  cases hcon : isJsSpace c with
  | false => rfl
  | true =>
      exfalso
      have hmem : c.toNat ∈ jsSpaceCodes := by
        simpa [isJsSpace] using hcon
      simp [jsSpaceCodes] at hmem
      omega

theorem digit_ne (c d : Char) (hc : isDigitC c = true) (hd : isDigitC d = false) : c ≠ d := by
  intro e
  rw [e, hd] at hc
  cases hc

theorem takeWhile_all (p : Char → Bool) (l : List Char) :
    (∀ c ∈ l, p c = true) → l.takeWhile p = l := by
  induction l with
  | nil => intro _; rfl
  | cons a as ih =>
      intro h
      have h1 : p a = true := h a (List.mem_cons_self a as)
      have h2 : as.takeWhile p = as := ih (fun c hc => h c (List.mem_cons_of_mem a hc))
      simp [List.takeWhile_cons, h1, h2]

theorem dropWhile_all (p : Char → Bool) (l : List Char) :
    (∀ c ∈ l, p c = true) → l.dropWhile p = [] := by
  induction l with
  | nil => intro _; rfl
  | cons a as ih =>
      intro h
      have h1 : p a = true := h a (List.mem_cons_self a as)
      have h2 : as.dropWhile p = [] := ih (fun c hc => h c (List.mem_cons_of_mem a hc))
      simp [List.dropWhile_cons, h1, h2]

theorem takeWhile_append_stop (p : Char → Bool) (i : List Char) (c : Char) (cs : List Char)
    (hc : p c = false) :
    (∀ x ∈ i, p x = true) → (i ++ c :: cs).takeWhile p = i := by
  induction i with
  | nil =>
      intro _
      simp [List.takeWhile_cons, hc]
  | cons a as ih =>
      intro hi
      have h1 : p a = true := hi a (List.mem_cons_self a as)
      have h2 := ih (fun x hx => hi x (List.mem_cons_of_mem a hx))
      simp [List.takeWhile_cons, h1, h2]

theorem dropWhile_append_stop (p : Char → Bool) (i : List Char) (c : Char) (cs : List Char)
    (hc : p c = false) :
    (∀ x ∈ i, p x = true) → (i ++ c :: cs).dropWhile p = c :: cs := by
  induction i with
  | nil =>
      intro _
      simp [List.dropWhile_cons, hc]
  | cons a as ih =>
      intro hi
      have h1 : p a = true := hi a (List.mem_cons_self a as)
      have h2 := ih (fun x hx => hi x (List.mem_cons_of_mem a hx))
      simp [List.dropWhile_cons, h1, h2]

theorem stripJs_of_no_space (l : List Char) (h : ∀ c ∈ l, isJsSpace c = false) :
    stripJs l = l := by
  unfold stripJs
  rw [List.filter_eq_self]
  intro c hc
  simp [h c hc]

theorem matchesIntFrac_some_none (n i : List Char)
    (h : matchesIntFrac n = some (i, none)) :
    n = i ∧ i ≠ [] ∧ ∀ c ∈ i, isDigitC c = true := by
  unfold matchesIntFrac at h
  by_cases h1 : n.takeWhile isDigitC = []
  · rw [if_pos h1] at h
    cases h
  · rw [if_neg h1] at h
    have hdig : ∀ c ∈ n.takeWhile isDigitC, isDigitC c = true :=
      fun c hc => List.mem_takeWhile_imp hc
    cases hdw : n.dropWhile isDigitC with
    | nil =>
        rw [hdw] at h
        simp at h
        refine ⟨?_, h ▸ h1, h ▸ hdig⟩
        conv_lhs => rw [(List.takeWhile_append_dropWhile isDigitC n).symm]
        rw [hdw, List.append_nil, h]
    | cons c cs =>
        rw [hdw] at h
        simp only [] at h
        split_ifs at h with hcond
        · simp at h

theorem matchesIntFrac_some_some (n i f : List Char)
    (h : matchesIntFrac n = some (i, some f)) :
    n = i ++ '.' :: f ∧ i ≠ [] ∧ (∀ c ∈ i, isDigitC c = true)
      ∧ f ≠ [] ∧ ∀ c ∈ f, isDigitC c = true := by
  unfold matchesIntFrac at h
  by_cases h1 : n.takeWhile isDigitC = []
  · rw [if_pos h1] at h
    cases h
  · rw [if_neg h1] at h
    have hdig : ∀ c ∈ n.takeWhile isDigitC, isDigitC c = true :=
      fun c hc => List.mem_takeWhile_imp hc
    cases hdw : n.dropWhile isDigitC with
    | nil =>
        rw [hdw] at h
        simp at h
    | cons c cs =>
        rw [hdw] at h
        simp only [] at h
        split_ifs at h with hcond
        · simp at h
          obtain ⟨hi2, hf2⟩ := h
          refine ⟨?_, hi2 ▸ h1, hi2 ▸ hdig, hf2 ▸ hcond.2.1, ?_⟩
          · conv_lhs => rw [(List.takeWhile_append_dropWhile isDigitC n).symm]
            rw [hdw, hi2, hf2, hcond.1]
          · intro x hx
            exact (List.all_eq_true.mp hcond.2.2) x (hf2 ▸ hx)

theorem natOfDigits_cons_zero (l : List Char) :
    natOfDigits ('0' :: l) = natOfDigits l := rfl

theorem natOfDigits_dropZeros (l : List Char) :
    natOfDigits (l.dropWhile (fun c => c = '0')) = natOfDigits l := by
  induction l with
  | nil => rfl
  | cons c r ih =>
      rw [List.dropWhile_cons]
      by_cases hc : c = '0'
      · subst hc
        rw [if_pos (by decide), ih]
        exact (natOfDigits_cons_zero r).symm
      · rw [if_neg (by simp [hc])]

theorem natOfDigits_all_zero (l : List Char)
    (h : l.dropWhile (fun c => c = '0') = []) : natOfDigits l = 0 := by
  rw [← natOfDigits_dropZeros, h]
  rfl

theorem natOfDigits_cleanInt (l : List Char) :
    natOfDigits (cleanInt l) = natOfDigits l := by
  simp only [cleanInt]
  by_cases hd : l.dropWhile (fun c => c = '0') = []
  · rw [if_pos hd, natOfDigits_all_zero l hd]
    rfl
  · rw [if_neg hd, natOfDigits_dropZeros]

theorem cleanInt_ne_nil (l : List Char) : cleanInt l ≠ [] := by
  simp only [cleanInt]
  by_cases hd : l.dropWhile (fun c => c = '0') = [] <;> simp [hd]

theorem cleanInt_digits (l : List Char) (h : ∀ c ∈ l, isDigitC c = true) :
    ∀ c ∈ cleanInt l, isDigitC c = true := by
  intro c hc
  simp only [cleanInt] at hc
  by_cases hd : l.dropWhile (fun c => c = '0') = []
  · rw [if_pos hd] at hc
    rcases List.mem_singleton.mp hc with rfl
    decide
  · rw [if_neg hd] at hc
    exact h c ((List.dropWhile_sublist _).subset hc)

theorem stripJs_g3r (m : List Char) :
    (∀ c ∈ m, isJsSpace c = false) → stripJs (g3r m) = m := by
  induction m using g3r.induct with
  | case1 a b c d r ih =>
      intro hm
      have ha := hm a (by simp)
      have hb := hm b (by simp)
      have hc := hm c (by simp)
      simp only [g3r]
      rw [stripJs_cons_keep a _ ha, stripJs_cons_keep b _ hb, stripJs_cons_keep c _ hc]
      have hsp : stripJs (' ' :: g3r (d :: r)) = stripJs (g3r (d :: r)) := by
        unfold stripJs
        rw [List.filter_cons, if_neg (by decide)]
      rw [hsp, ih (fun x hx => hm x
        (List.mem_cons_of_mem a (List.mem_cons_of_mem b (List.mem_cons_of_mem c hx))))]
  | case2 l hshape =>
      intro hm
      have hg : g3r l = l := by
        rw [g3r.eq_def]
        split
        · rename_i a b c d r
          exact (hshape a b c d r rfl).elim
        · rfl
      rw [hg]
      exact stripJs_of_no_space l hm

theorem stripJs_groupThousands (i : List Char) (hi : ∀ c ∈ i, isDigitC c = true) :
    stripJs (groupThousands i) = cleanInt i := by
  unfold groupThousands
  have hns : ∀ c ∈ (cleanInt i).reverse, isJsSpace c = false := by
    intro c hc
    exact digit_not_space c (cleanInt_digits i hi c (List.mem_reverse.mp hc))
  rw [stripJs_reverse, stripJs_g3r _ hns, List.reverse_reverse]

theorem not_e_of_digit (c : Char) (hcd : isDigitC c = true) :
    (fun c => !(c = 'e' || c = 'E')) c = true := by
  by_cases he : c = 'e'
  · subst he
    exact absurd hcd (by decide)
  · by_cases hE : c = 'E'
    · subst hE
      exact absurd hcd (by decide)
    · simp [he, hE]

theorem decLitVal_digits (i : List Char) (hi : i ≠ []) (hd : ∀ c ∈ i, isDigitC c = true) :
    decLitVal i = some ((natOfDigits i : ℚ)) := by
  have hInf : i ≠ ("Infinity").data := by
    intro he
    have hI : isDigitC 'I' = true := hd 'I' (he ▸ (by decide : 'I' ∈ ("Infinity").data))
    exact absurd hI (by decide)
  have hq : ∀ c ∈ i, (fun c => !(c = 'e' || c = 'E')) c = true :=
    fun c hc => not_e_of_digit c (hd c hc)
  simp only [decLitVal, if_neg hInf, dropWhile_all _ i hq, mantissaVal,
    dropWhile_all isDigitC i hd, takeWhile_all isDigitC i hd, if_neg hi]

theorem decLitVal_digits_dot (i f : List Char) (hi : i ≠ [])
    (hdi : ∀ c ∈ i, isDigitC c = true) (hdf : ∀ c ∈ f, isDigitC c = true) :
    decLitVal (i ++ '.' :: f)
      = some ((natOfDigits i : ℚ) + (natOfDigits f : ℚ) / (10 : ℚ) ^ f.length) := by
  have hInf : i ++ '.' :: f ≠ ("Infinity").data := by
    intro he
    cases i with
    | nil => exact hi rfl
    | cons a i2 =>
        rw [List.cons_append] at he
        injection he with h1 h2
        have ha := hdi a (List.mem_cons_self a i2)
        rw [h1] at ha
        exact absurd ha (by decide)
  have hq : ∀ c ∈ i ++ '.' :: f, (fun c => !(c = 'e' || c = 'E')) c = true := by
    intro c hc
    rcases List.mem_append.mp hc with hx | hx
    · exact not_e_of_digit c (hdi c hx)
    · rcases List.mem_cons.mp hx with rfl | hx2
      · decide
      · exact not_e_of_digit c (hdf c hx2)
  have htw : (i ++ '.' :: f).takeWhile isDigitC = i :=
    takeWhile_append_stop isDigitC i '.' f (by decide) hdi
  have hdw : (i ++ '.' :: f).dropWhile isDigitC = '.' :: f :=
    dropWhile_append_stop isDigitC i '.' f (by decide) hdi
  simp only [decLitVal, if_neg hInf, dropWhile_all _ _ hq, mantissaVal, hdw, htw]
  rw [if_pos (⟨trivial, List.all_eq_true.mpr hdf, Or.inl hi⟩ :
    True ∧ f.all isDigitC = true ∧ (i ≠ [] ∨ f ≠ []))]

theorem jsNumberFinite_of_digit_head (c : Char) (r : List Char)
    (hc : isDigitC c = true)
    (hr : ∀ c2 ∈ r.head?, isDigitC c2 = true ∨ c2 = '.') :
    jsNumberFinite (c :: r) = decLitVal (c :: r) := by
  have hplus : ¬ c = '+' := digit_ne c '+' hc (by decide)
  have hminus : ¬ c = '-' := digit_ne c '-' hc (by decide)
  simp only [jsNumberFinite, if_neg hplus, if_neg hminus]
  by_cases h0 : c = '0'
  · rw [if_pos h0]
    cases r with
    | nil => rfl
    | cons c2 r2 =>
        have hc2 : isDigitC c2 = true ∨ c2 = '.' := hr c2 (by simp)
        have hx : ¬ (c2 = 'x' ∨ c2 = 'X') := by
          rcases hc2 with hd2 | hd2
          · rintro (rfl | rfl) <;> exact absurd hd2 (by decide)
          · subst hd2
            rintro (h | h) <;> cases h
        have ho : ¬ (c2 = 'o' ∨ c2 = 'O') := by
          rcases hc2 with hd2 | hd2
          · rintro (rfl | rfl) <;> exact absurd hd2 (by decide)
          · subst hd2
            rintro (h | h) <;> cases h
        have hbb : ¬ (c2 = 'b' ∨ c2 = 'B') := by
          rcases hc2 with hd2 | hd2
          · rintro (rfl | rfl) <;> exact absurd hd2 (by decide)
          · subst hd2
            rintro (h | h) <;> cases h
        simp only []
        rw [if_neg hx, if_neg ho, if_neg hbb]
  · rw [if_neg h0]

theorem jsNumberFinite_digits (i : List Char) (hi : i ≠ [])
    (hd : ∀ c ∈ i, isDigitC c = true) :
    jsNumberFinite i = some ((natOfDigits i : ℚ)) := by
  cases i with
  | nil => exact absurd rfl hi
  | cons c r =>
      rw [jsNumberFinite_of_digit_head c r (hd c (List.mem_cons_self c r)) ?_]
      · exact decLitVal_digits _ hi hd
      · intro c2 hc2
        cases r with
        | nil => simp at hc2
        | cons b r2 =>
            have hb : b = c2 := by simpa using hc2
            subst hb
            exact Or.inl (hd b (List.mem_cons_of_mem c (List.mem_cons_self b r2)))

theorem jsNumberFinite_digits_dot (i f : List Char) (hi : i ≠ [])
    (hdi : ∀ c ∈ i, isDigitC c = true) (hdf : ∀ c ∈ f, isDigitC c = true) :
    jsNumberFinite (i ++ '.' :: f)
      = some ((natOfDigits i : ℚ) + (natOfDigits f : ℚ) / (10 : ℚ) ^ f.length) := by
  cases i with
  | nil => exact absurd rfl hi
  | cons c i2 =>
      rw [List.cons_append]
      rw [jsNumberFinite_of_digit_head c (i2 ++ '.' :: f) (hdi c (List.mem_cons_self c i2)) ?_]
      · rw [← List.cons_append]
        exact decLitVal_digits_dot (c :: i2) f hi hdi hdf
      · intro c2 hc2
        cases i2 with
        | nil =>
            have hb : ('.' : Char) = c2 := by simpa using hc2
            exact Or.inr hb.symm
        | cons b i3 =>
            have hb : b = c2 := by simpa using hc2
            subst hb
            exact Or.inl (hdi b (List.mem_cons_of_mem c (List.mem_cons_self b i3)))

/-- The backbone of C10: formatting any raw string for input display never
changes what it parses to. -/
theorem parse_format_roundtrip (l : List Char) :
    parseInputNumberL (formatNumberForInputL l) = parseInputNumberL l := by
  unfold formatNumberForInputL
  by_cases hn : normalizeNumberText l = []
  · rw [if_pos hn]
    have h1 : parseInputNumberL l = none := by
      simp only [parseInputNumberL]
      rw [if_pos hn]
    rw [h1]
    rfl
  · rw [if_neg hn]
    cases hm : matchesIntFrac (normalizeNumberText l) with
    | none =>
        exact parseInputNumberL_strip_invariant _ _ (stripJs_trimJs l)
    | some pr =>
        obtain ⟨i, fo⟩ := pr
        have hRHS : parseInputNumberL l = jsNumberFinite (normalizeNumberText l) := by
          simp only [parseInputNumberL]
          rw [if_neg hn]
        cases fo with
        | none =>
            obtain ⟨hni, hine, hidig⟩ := matchesIntFrac_some_none _ _ hm
            have hnocomma : (',' : Char) ∉ cleanInt i := by
              intro hmem
              exact absurd (cleanInt_digits i hidig ',' hmem) (by decide)
            have hLHS : parseInputNumberL (groupThousands i)
                = jsNumberFinite (cleanInt i) := by
              simp only [parseInputNumberL]
              rw [normalizeNumberText_eq_strip, stripJs_groupThousands i hidig,
                  replaceFirstComma_of_not_mem _ hnocomma,
                  if_neg (cleanInt_ne_nil i)]
            rw [hLHS, hRHS, hni]
            rw [jsNumberFinite_digits (cleanInt i) (cleanInt_ne_nil i) (cleanInt_digits i hidig),
                jsNumberFinite_digits i hine hidig, natOfDigits_cleanInt]
        | some f =>
            obtain ⟨hni, hine, hidig, hfne, hfdig⟩ := matchesIntFrac_some_some _ _ _ hm
            have hnocomma : (',' : Char) ∉ cleanInt i := by
              intro hmem
              exact absurd (cleanInt_digits i hidig ',' hmem) (by decide)
            have hfns : ∀ c ∈ f, isJsSpace c = false :=
              fun c hc => digit_not_space c (hfdig c hc)
            have hLHS : parseInputNumberL (groupThousands i ++ ',' :: f)
                = jsNumberFinite (cleanInt i ++ '.' :: f) := by
              simp only [parseInputNumberL]
              rw [normalizeNumberText_eq_strip, stripJs_append,
                  stripJs_cons_keep ',' f (by decide),
                  stripJs_groupThousands i hidig, stripJs_of_no_space f hfns,
                  replaceFirstComma_append_comma _ _ hnocomma,
                  if_neg (by simp)]
            rw [hLHS, hRHS, hni]
            rw [jsNumberFinite_digits_dot (cleanInt i) f (cleanInt_ne_nil i)
                  (cleanInt_digits i hidig) hfdig,
                jsNumberFinite_digits_dot i f hine hidig hfdig, natOfDigits_cleanInt]

/-- C10: whenever a string parses to a value, formatting it with
`formatNumberForInput` (thousands grouped by spaces, comma as the decimal
separator) parses back to the same value — formatting never loses or
alters the numeric value.  JavaScript's `String(v)` renders every finite
number as a string that `Number` parses back to `v`, so the
`formatNumberValueForInput` round trip is this statement at
`s = String(v)`. -/
theorem c10_format_parse_roundtrip (s : String) (v : ℚ)
    (h : parseInputNumber s = some v) :
    parseInputNumber (formatNumberForInput s) = some v := by
  unfold parseInputNumber at h ⊢
  have hfmt : (formatNumberForInput s).data = formatNumberForInputL s.data := rfl
  rw [hfmt, parse_format_roundtrip, h]

/-- C10 witness: `1 234` parses to 1234 before and after formatting. -/
theorem c10_format_parse_roundtrip_witness :
    parseInputNumber ("1 234") = some 1234
    ∧ parseInputNumber (formatNumberForInput ("1 234")) = some 1234 :=
  ⟨by rfl, c10_format_parse_roundtrip ("1 234") 1234 (by rfl)⟩

end CXEMA
